import Mathlib

/-!
# Shallow embedding of the divbloxjs/dx-cli-tools sources

This file embeds the three JavaScript source files of the repository
(`src/parser.js`, `src/unnamed/part_000`, `src/unnamed/part_001`) as
executable Lean definitions and proves the specification claims about them.

JavaScript objects whose keys are flag tokens (strings beginning with `-`)
or the reserved sentinel `"unknowns"` are modelled as insertion-ordered
association lists with unique keys: for such (non array-index) keys,
JavaScript property iteration order is insertion order, assignment to an
existing key keeps its position, and `delete` removes the entry while
preserving the relative order of the others.
-/

namespace DxCli

/-- A JavaScript object mapping flag tokens to the ordered list of values
collected for that flag, in insertion order. -/
abbrev Obj := List (String × List String)

/-- `Object.keys`, in insertion order. -/
def objKeys (o : Obj) : List String := o.map Prod.fst

/-- Property read `o[k]`: the value at the first (unique) binding of `k`. -/
def objLookup (o : Obj) (k : String) : Option (List String) :=
  (o.find? (fun p => p.1 == k)).map Prod.snd

/-- Property assignment `o[k] = v`: overwrite in place when `k` is present
(keeping its position in iteration order), otherwise append a new binding. -/
def objSet (o : Obj) (k : String) (v : List String) : Obj :=
  if (objKeys o).contains k then
    o.map (fun p => if p.1 == k then (p.1, v) else p)
  else
    o ++ [(k, v)]

/-- `o[k].push(v)`: append `v` to the value list stored at `k`.  In the
parser `k` is always a present key (the current bucket), so the
missing-key case never arises on reachable states. -/
def objPush (o : Obj) (k : String) (v : String) : Obj :=
  o.map (fun p => if p.1 == k then (p.1, p.2 ++ [v]) else p)

/-- `delete o[k]`: remove the binding of `k`, preserving the order of the
remaining bindings. -/
def objDelete (o : Obj) (k : String) : Obj :=
  o.filter (fun p => p.1 != k)

/-! ## Console Presenter (src/unnamed/part_001)

`commandLineColors` and `commandLineFormats` are the two enumerations; the
ANSI escape strings are copied verbatim from the source. -/

namespace commandLineColors

def reset : String := "\x1b[0m"
def bright : String := "\x1b[1m"
def dim : String := "\x1b[2m"
def underscore : String := "\x1b[4m"
def blink : String := "\x1b[5m"
def reverse : String := "\x1b[7m"
def hidden : String := "\x1b[8m"
def foregroundBlack : String := "\x1b[30m"
def foregroundRed : String := "\x1b[31m"
def foregroundGreen : String := "\x1b[32m"
def foregroundYellow : String := "\x1b[33m"
def foregroundBlue : String := "\x1b[34m"
def foregroundMagenta : String := "\x1b[35m"
def foregroundCyan : String := "\x1b[36m"
def foregroundWhite : String := "\x1b[37m"
def backgroundBlack : String := "\x1b[40m"
def backgroundRed : String := "\x1b[41m"
def backgroundGreen : String := "\x1b[42m"
def backgroundYellow : String := "\x1b[43m"
def backgroundBlue : String := "\x1b[44m"
def backgroundMagenta : String := "\x1b[45m"
def backgroundCyan : String := "\x1b[46m"
def backgroundWhite : String := "\x1b[47m"

end commandLineColors

namespace commandLineFormats

def heading : String := "heading"
def subHeading : String := "subHeading"
def defaultFmt : String := "default"
def primary : String := "primary"
def secondary : String := "secondary"
def success : String := "success"
def danger : String := "danger"
def warning : String := "warning"
def info : String := "info"
def light : String := "light"
def dark : String := "dark"
def terminal : String := "terminal"

end commandLineFormats

/-- The body of the `for (const format of formats)` loop of
`getCommandLineFormat`: the `switch` becomes a chain of string
comparisons, an unrecognized name falls through all cases and leaves
`finalFormat` unchanged. -/
def getCommandLineFormatStep (finalFormat format : String) : String :=
  if format = commandLineFormats.heading then
    finalFormat ++ commandLineColors.bright
  else if format = commandLineFormats.subHeading then
    finalFormat ++ commandLineColors.dim
  else if format = commandLineFormats.defaultFmt then
    finalFormat ++ commandLineColors.reset
  else if format = commandLineFormats.primary then
    finalFormat ++ commandLineColors.foregroundBlue
  else if format = commandLineFormats.secondary then
    finalFormat ++ commandLineColors.foregroundCyan
  else if format = commandLineFormats.success then
    finalFormat ++ commandLineColors.foregroundGreen
  else if format = commandLineFormats.danger then
    finalFormat ++ commandLineColors.foregroundRed
  else if format = commandLineFormats.warning then
    finalFormat ++ commandLineColors.foregroundYellow
  else if format = commandLineFormats.info then
    finalFormat ++ commandLineColors.foregroundMagenta
  else if format = commandLineFormats.light then
    finalFormat ++ commandLineColors.foregroundWhite
  else if format = commandLineFormats.dark then
    finalFormat ++ commandLineColors.foregroundBlack
  else if format = commandLineFormats.terminal then
    finalFormat ++ (commandLineColors.foregroundWhite ++ commandLineColors.backgroundBlack)
  else
    finalFormat

/-- `getCommandLineFormat(formats)`: start from the reset code and fold
the sequence left to right, appending the code of each recognized
semantic name. -/
def getCommandLineFormat (formats : List String) : String :=
  formats.foldl getCommandLineFormatStep commandLineColors.reset

/-- The single ANSI contribution of one semantic format name (empty for an
unrecognized name): the per-case content of the `switch`, used to state
that `getCommandLineFormat` is a left fold of these contributions. -/
def formatCode (format : String) : String :=
  if format = commandLineFormats.heading then commandLineColors.bright
  else if format = commandLineFormats.subHeading then commandLineColors.dim
  else if format = commandLineFormats.defaultFmt then commandLineColors.reset
  else if format = commandLineFormats.primary then commandLineColors.foregroundBlue
  else if format = commandLineFormats.secondary then commandLineColors.foregroundCyan
  else if format = commandLineFormats.success then commandLineColors.foregroundGreen
  else if format = commandLineFormats.danger then commandLineColors.foregroundRed
  else if format = commandLineFormats.warning then commandLineColors.foregroundYellow
  else if format = commandLineFormats.info then commandLineColors.foregroundMagenta
  else if format = commandLineFormats.light then commandLineColors.foregroundWhite
  else if format = commandLineFormats.dark then commandLineColors.foregroundBlack
  else if format = commandLineFormats.terminal then
    commandLineColors.foregroundWhite ++ commandLineColors.backgroundBlack
  else ""

/-- Concatenation of the per-name contributions of a format sequence. -/
def formatCodes (formats : List String) : String :=
  formats.foldr (fun f acc => formatCode f ++ acc) ""

/-! ### executeCommand -/

/-- The failure object with which the promisified `exec` rejects (a
non-null JavaScript `Error` carrying a message). -/
structure ExecFailure where
  message : String
deriving Repr, DecidableEq

/-- What the external shell does with a command: either the command
completes (exit status 0) with captured stdout and stderr, or the awaited
promise rejects with a failure object (this covers a non-zero exit status
and a command that could not be started). -/
inductive ExecOutcome where
  | completed (stdout stderr : String)
  | rejected (err : ExecFailure)
deriving Repr, DecidableEq

/-- A JavaScript value stored in the `error` field of the result of
`executeCommand`: `null`, a string, or a failure object. -/
inductive JSVal where
  | nullv
  | str (s : String)
  | failureObj (e : ExecFailure)
deriving Repr, DecidableEq

/-- The result object `{ output, error }` of `executeCommand`. -/
structure ExecResult where
  output : String
  error : JSVal
deriving Repr, DecidableEq

/-- `await execPromise(command)`: resolves with `{ stdout, stderr }` or
throws the rejection failure, as determined by the external outcome. -/
def execPromise (world : ExecOutcome) : Except ExecFailure (String × String) :=
  match world with
  | .completed stdout stderr => .ok (stdout, stderr)
  | .rejected err => .error err

/-- `executeCommand(command)`: awaits the promisified `exec` inside
`try`/`catch`; the `Except` return type records whether the function
itself raises (it never does: both branches return a result value). -/
def executeCommand (world : ExecOutcome) : Except ExecFailure ExecResult :=
  match execPromise world with
  | .ok (stdout, stderr) => .ok { output := stdout, error := .str stderr }
  | .error error => .ok { output := "", error := .failureObj error }

/-! ### Formatted printing -/

/-- `outputFormattedLog(message, colorReference)`: the single line printed
to the console, `colorReference + "%s" + reset` with `message`
substituted for the `%s` placeholder. -/
def outputFormattedLog (message colorReference : String) : String :=
  colorReference ++ message ++ commandLineColors.reset

/-- `"-".repeat(process.stdout.columns)`: when the terminal column count is
unavailable, `columns` is `undefined` and `String.repeat` coerces it to
`0`, yielding the empty separator. -/
def lineText (columns : Option Nat) : String :=
  String.mk (List.replicate (columns.getD 0) '-')

/-- `printFormattedMessage(message, messageType, messageColor)`: the list
of console lines printed, dispatching on `messageType`; `columns` is the
current `process.stdout.columns` (`none` when unavailable). -/
def printFormattedMessage (message messageType messageColor : String)
    (columns : Option Nat) : List String :=
  if messageType = commandLineFormats.heading then
    [outputFormattedLog (lineText columns) (getCommandLineFormat [messageType, messageColor]),
     outputFormattedLog message.toUpper (getCommandLineFormat [messageType, messageColor]),
     outputFormattedLog (lineText columns) (getCommandLineFormat [messageType, messageColor])]
  else if messageType = commandLineFormats.subHeading then
    [outputFormattedLog message (getCommandLineFormat [messageType, messageColor]),
     outputFormattedLog (lineText columns) (getCommandLineFormat [messageType, messageColor])]
  else if messageType = commandLineFormats.defaultFmt then
    [outputFormattedLog message (getCommandLineFormat [messageType, messageColor])]
  else if messageType = commandLineFormats.terminal then
    [outputFormattedLog (": " ++ message ++ " ") (getCommandLineFormat [messageType, messageColor])]
  else
    [outputFormattedLog message (getCommandLineFormat [messageType, messageColor])]

/-! ## Argument Router (src/parser.js and src/unnamed/part_000)

The two variants share every statement of `run` except that part_000
additionally assigns to the undeclared identifier `versionNumber`; the
shared remainder is embedded once as `runBody`.  A handler is modelled by
the list of console lines it emits and an optional raised error; the
console bodies of the built-in `help`/`version` handlers perform I/O
(usage table, `npm list` scraping) that is abstracted to a marker line —
the usage-table construction itself is embedded separately as
`buildUsage`. -/

/-- A Flag Definition: registry entry `{ name, description,
allowedOptions?, f }`.  The handler `f` maps the positional values it is
invoked with to the console lines it emits plus an optional raised
error. -/
structure FlagDef where
  name : String
  description : String
  allowedOptions : Option (List String)
  f : List String → List String × Option String

/-- The Flag Registry: a JavaScript object mapping flag tokens to Flag
Definitions, in insertion order. -/
abbrev Registry := List (String × FlagDef)

/-- `Object.keys` of a registry. -/
def registryKeys (reg : Registry) : List String := reg.map Prod.fst

/-- Registry property read `reg[k]`. -/
def registryLookup (reg : Registry) (k : String) : Option FlagDef :=
  (reg.find? (fun p => p.1 == k)).map Prod.snd

/-- Registry property assignment `reg[k] = d` (overwrite in place or
append, as for `objSet`). -/
def registrySet (reg : Registry) (k : String) (d : FlagDef) : Registry :=
  if (registryKeys reg).contains k then
    reg.map (fun p => if p.1 == k then (p.1, d) else p)
  else
    reg ++ [(k, d)]

/-- `arg.charAt(0) === "-"` (for the empty string `charAt(0)` is the empty
string, which is not `"-"`). -/
def isFlagToken (arg : String) : Bool := arg.data.head? == some '-'

/-- The `process.argv.forEach` loop of `parseInputArguments`: a flag token
becomes the new current bucket and is assigned a fresh empty array
(unconditionally — a repeated flag token resets its bucket); any other
token is pushed onto the current bucket. -/
def parseLoop (parsedArgs : Obj) (currentArgName : String) : List String → Obj
  | [] => parsedArgs
  | arg :: rest =>
    if isFlagToken arg then
      parseLoop (objSet parsedArgs arg []) arg rest
    else
      parseLoop (objPush parsedArgs currentArgName arg) currentArgName rest

/-- `parseInputArguments()`: starts from `{ unknowns: [] }` with current
bucket `"unknowns"` and scans the raw argument list.  (The defensive
`Array.isArray(process.argv)` check always passes in this model, where the
argument list is a list by type.) -/
def parseInputArguments (argv : List String) : Obj :=
  parseLoop [("unknowns", [])] "unknowns" argv

/-- `handleError(message)` raises `new Error(message)` after printing this
banner referencing the help flag. -/
def errorBanner (cliToolName : String) : String :=
  "ERROR: Something went wrong. Run \x27" ++ cliToolName ++ " -h\x27 for supported usage"

/-- `processParsedArguments(parsedArgs)`: deletes the reserved `unknowns`
bucket, then walks the remaining keys in insertion order and raises (via
`handleError`) on the first key absent from the Flag Registry; otherwise
returns the (mutated) input object. -/
def processParsedArguments (registry : Registry) (parsedArgs : Obj) : Except String Obj :=
  let processedArgs := objDelete parsedArgs "unknowns"
  match (objKeys processedArgs).find?
      (fun argName => !(registryKeys registry).contains argName) with
  | some argName => .error ("Invalid argument: " ++ argName)
  | none => .ok processedArgs

/-- A heap of JavaScript objects indexed by references, used to state the
aliasing behaviour of `processParsedArguments`. -/
def heapSet (h : Nat → Obj) (r : Nat) (o : Obj) : Nat → Obj :=
  fun i => if i = r then o else h i

/-- `processParsedArguments` with the heap explicit: the function receives
a reference `r`, mutates the referenced object in place (`delete
processedArgs.unknowns` acts on the very object passed in, since
`processedArgs` aliases `parsedArgs`), and on success returns the same
reference. -/
def processParsedArgumentsRef (registry : Registry) (h : Nat → Obj) (r : Nat) :
    Except String ((Nat → Obj) × Nat) :=
  let afterDelete := objDelete (h r) "unknowns"
  let h2 := heapSet h r afterDelete
  match (objKeys afterDelete).find?
      (fun argName => !(registryKeys registry).contains argName) with
  | some argName => .error ("Invalid argument: " ++ argName)
  | none => .ok (h2, r)

/-! ### outputSupportedUsage -/

/-- One row of the usage table built by `outputSupportedUsage`. -/
structure UsageRow where
  Flags : List String
  Options : List String
  Description : String
deriving Repr, DecidableEq

/-- The usage table: a JavaScript object keyed by canonical flag name. -/
abbrev UsageTable := List (String × UsageRow)

/-- Usage-table property read. -/
def usageLookup (usage : UsageTable) (k : String) : Option UsageRow :=
  (usage.find? (fun p => p.1 == k)).map Prod.snd

/-- One iteration of the `Object.keys(supportedArguments).map` loop: the
first token carrying a canonical name creates that name's row; a later
token sharing the name only pushes itself onto the row's `Flags`. -/
def buildUsageStep (usage : UsageTable) (entry : String × FlagDef) : UsageTable :=
  let argumentName := entry.1
  let d := entry.2
  match usageLookup usage d.name with
  | none =>
    usage ++ [(d.name,
      { Flags := [argumentName],
        Options := d.allowedOptions.getD [],
        Description := d.description })]
  | some row =>
    usage.map (fun p =>
      if p.1 == d.name then (p.1, { row with Flags := row.Flags ++ [argumentName] }) else p)

/-- The usage table printed by `outputSupportedUsage()` (the
`console.table` rendering itself is outside the model). -/
def buildUsage (registry : Registry) : UsageTable :=
  registry.foldl buildUsageStep []

/-! ### run -/

/-- A console/dispatch event observed during `run`. -/
inductive Event where
  | printed (line : String)
  | invoked (argName : String) (args : List String)
  | emitted (line : String)
deriving Repr, DecidableEq

/-- How a call to `run` ends: normal completion, `process.exit(code)`, or
a raised error. -/
inductive RunOutcome where
  | finished
  | exited (code : Nat)
  | threw (message : String)
deriving Repr, DecidableEq

/-- The `for (const argName of Object.keys(processedArgs))` dispatch loop:
looks the key up in the registry, invokes its handler with the bucket
values as positional arguments and awaits it; a raised error propagates
and aborts the remaining iterations.  (After validation every key is
present, so the `none` branch — reading `.f` of `undefined` — is
unreachable.) -/
def dispatchLoop (registry : Registry) : List (String × List String) → List Event × RunOutcome
  | [] => ([], .finished)
  | (argName, vals) :: rest =>
    match registryLookup registry argName with
    | none => ([], .threw "TypeError: undefined handler")
    | some d =>
      match d.f vals with
      | (lines, some e) => (Event.invoked argName vals :: lines.map Event.emitted, .threw e)
      | (lines, none) =>
        let step := dispatchLoop registry rest
        (Event.invoked argName vals :: (lines.map Event.emitted ++ step.1), step.2)

/-- The caller-supplied registry merge loop of `run`:
`supportedArguments[argName] = runParams.supportedArguments[argName]` for
each caller key, caller entries overwriting built-ins on collision. -/
def mergeRegistry (builtins : Registry) (callerArgs : Registry) : Registry :=
  callerArgs.foldl (fun reg entry => registrySet reg entry.1 entry.2) builtins

/-- Built-in `help` Flag Definition (its handler prints the usage table;
that console output is abstracted to a marker line). -/
def helpDef : FlagDef :=
  { name := "help",
    description := "Prints the currently supported usage of the CLI",
    allowedOptions := none,
    f := fun _ => (["<usage table>"], none) }

/-- Built-in `version` Flag Definition (its handler scrapes version
information via external commands; that console output is abstracted to a
marker line).  The template literal in its description interpolates the
module-load value `"my-cli"` of `cliToolName`. -/
def versionDef : FlagDef :=
  { name := "version",
    description := "Prints the currently installed version of the my-cli CLI",
    allowedOptions := none,
    f := fun _ => (["<version info>"], none) }

/-- The built-in `supportedArguments` registry. -/
def builtinSupportedArguments : Registry :=
  [("-h", helpDef), ("--help", helpDef), ("-v", versionDef), ("--version", versionDef)]

/-- The usage hint printed when no flags remain after removing the
reserved bucket. -/
def noFlagsHint (cliToolName : String) : String :=
  "No input flags provided. Run \x27" ++ cliToolName ++ " -h\x27 for supported usage."

/-- The part of `run` shared verbatim by src/parser.js and
src/unnamed/part_000: merge the caller registry into the built-ins, parse
and validate the process arguments, exit with status 1 on zero flags, and
otherwise dispatch sequentially. -/
def runBody (cliToolName : String) (callerArgs : Registry) (argv : List String) :
    List Event × RunOutcome :=
  let supported := mergeRegistry builtinSupportedArguments callerArgs
  let parsedArgs := parseInputArguments argv
  match processParsedArguments supported parsedArgs with
  | .error msg => ([Event.printed (errorBanner cliToolName)], .threw msg)
  | .ok processedArgs =>
    if (objKeys processedArgs).isEmpty then
      ([Event.printed (noFlagsHint cliToolName)], .exited 1)
    else
      dispatchLoop supported processedArgs

/-- `run(runParams)` of src/parser.js: set the display name, then the
shared body. -/
def run (cliToolNameParam : Option String) (callerArgs : Registry) (argv : List String) :
    List Event × RunOutcome :=
  let cliToolName := cliToolNameParam.getD "my-cli"
  runBody cliToolName callerArgs argv

/-! ### The src/unnamed/part_000 variant of run -/

/-- The identifiers declared at module scope in src/unnamed/part_000:
the import binding and the module-level `let`/`const` declarations.
`versionNumber` appears only inside a JSDoc comment, never as a
declaration. -/
def part000ModuleDeclarations : List String :=
  ["exec", "cliToolName", "parseInputArguments", "processParsedArguments",
   "outputSupportedUsage", "handleError", "help", "version", "supportedArguments", "run"]

/-- The identifiers declared inside the body (or parameter list) of `run`
in src/unnamed/part_000. -/
def part000RunScopeDeclarations : List String :=
  ["runParams", "parsedArgs", "processedArgs"]

/-- Whether a bare assignment inside `run` of src/unnamed/part_000
resolves to a declared binding.  An ES module executes in strict mode, so
an assignment to an unresolvable identifier throws a `ReferenceError`
instead of creating a global. -/
def resolvesInPart000Run (name : String) : Bool :=
  part000RunScopeDeclarations.contains name || part000ModuleDeclarations.contains name

/-- `run(runParams)` of src/unnamed/part_000: assigns `cliToolName`
(declared, so it succeeds), then `versionNumber = runParams?.versionNumber
?? "0.0.0"` (undeclared), then the shared body. -/
def runPart000 (cliToolNameParam versionNumberParam : Option String)
    (callerArgs : Registry) (argv : List String) : List Event × RunOutcome :=
  if resolvesInPart000Run "cliToolName" then
    let cliToolName := cliToolNameParam.getD "my-cli"
    if resolvesInPart000Run "versionNumber" then
      let _versionNumber := versionNumberParam.getD "0.0.0"
      runBody cliToolName callerArgs argv
    else
      ([], .threw "ReferenceError: versionNumber is not defined")
  else
    ([], .threw "ReferenceError: cliToolName is not defined")

/-! ### Specification-side descriptions used to state the claims -/

/-- Tags every non-flag token of the input with its current bucket at scan
position: the nearest preceding flag token, or the initial bucket for the
tokens before the first flag. -/
def tagTokens (currentArgName : String) : List String → List (String × String)
  | [] => []
  | arg :: rest =>
    if isFlagToken arg then tagTokens arg rest
    else (currentArgName, arg) :: tagTokens currentArgName rest

/-- The values the scan-position partition assigns to bucket `k`. -/
def bucketSpec (argv : List String) (k : String) : List String :=
  ((tagTokens "unknowns" argv).filter (fun p => p.1 == k)).map Prod.snd

/-- All values stored in an object, buckets concatenated in key order. -/
def allValues (o : Obj) : List String := o.foldr (fun p acc => p.2 ++ acc) []

/-- The events produced by dispatching one recognized flag: the
invocation marker followed by the lines its handler emits. -/
def handlerTrace (registry : Registry) (argName : String) (vals : List String) : List Event :=
  match registryLookup registry argName with
  | some d => Event.invoked argName vals :: (d.f vals).1.map Event.emitted
  | none => []

/-- The error a flag handler raises when invoked with the given values
(`none` when it completes normally or the flag is unbound). -/
def handlerRaises (registry : Registry) (argName : String) (vals : List String) :
    Option String :=
  match registryLookup registry argName with
  | some d => (d.f vals).2
  | none => none

/-- The number of rows of a usage table carrying a given canonical name. -/
def countRows (usage : UsageTable) (n : String) : Nat :=
  usage.countP (fun p => p.1 == n)

/-- The flag tokens of a registry whose Flag Definition carries the given
canonical name, in registry order. -/
def tokensWithName (registry : Registry) (n : String) : List String :=
  (registry.filter (fun p => p.2.name == n)).map Prod.fst

/-- A caller-supplied Flag Definition whose handler completes normally,
used to instantiate the dispatch theorems. -/
def sampleOkDef : FlagDef :=
  { name := "alpha", description := "sample flag", allowedOptions := none,
    f := fun vals => (["alpha ran" :: vals |> String.intercalate " "], none) }

/-- A caller-supplied Flag Definition whose handler raises, used to
instantiate the dispatch theorems. -/
def sampleFailDef : FlagDef :=
  { name := "beta", description := "sample failing flag", allowedOptions := none,
    f := fun _ => (["beta starting"], some "beta exploded") }

/-- A one-object heap used to instantiate the aliasing theorem. -/
def sampleHeap : Nat → Obj := fun _ => [("unknowns", ["node"]), ("-h", [])]

/-- Caller registry used to instantiate the dispatch theorem. -/
def sampleCallerArgs : Registry := [("-a", sampleOkDef), ("-b", sampleFailDef)]

/-- The merged registry of the dispatch instance. -/
def sampleRegistry : Registry := mergeRegistry builtinSupportedArguments sampleCallerArgs

/-- The raw arguments of the dispatch instance. -/
def sampleArgv : List String := ["node", "script.js", "-a", "x", "-b"]

/-- The validated Parsed Arguments of the dispatch instance. -/
def sampleProcessed : List (String × List String) := [("-a", ["x"]), ("-b", [])]

/-! ## Theorems -/

lemma contains_eq_true_iff_mem {l : List String} {a : String} :
    l.contains a = true ↔ a ∈ l := by
  simp [List.contains, List.elem_iff]

lemma objDelete_of_not_mem {o : Obj} {k : String} (h : k ∉ objKeys o) :
    objDelete o k = o := by
  unfold objDelete
  rw [List.filter_eq_self]
  intro p hp
  rw [bne_iff_ne]
  intro hk
  exact h (hk ▸ List.mem_map_of_mem Prod.fst hp)

lemma objLookup_objDelete_ne (o : Obj) {k m : String} (hk : k ≠ m) :
    objLookup (objDelete o m) k = objLookup o k := by
  unfold objDelete objLookup
  induction o with
  | nil => rfl
  | cons p l ih =>
    by_cases hp : p.1 = m
    · have h1 : ¬ ((p.1 != m) = true) := by simp [hp]
      have h2 : ¬ ((p.1 == k) = true) := by
        simp only [beq_iff_eq, hp]
        exact fun h => hk h.symm
      rw [List.filter_cons, if_neg h1,
        @List.find?_cons_of_neg _ (fun q => q.1 == k) p l h2]
      exact ih
    · have h1 : (p.1 != m) = true := by simp [hp]
      rw [List.filter_cons, if_pos h1]
      by_cases hpk : (p.1 == k) = true
      · rw [@List.find?_cons_of_pos _ (fun q => q.1 == k) p
            (List.filter (fun q => q.1 != m) l) hpk,
          @List.find?_cons_of_pos _ (fun q => q.1 == k) p l hpk]
      · rw [@List.find?_cons_of_neg _ (fun q => q.1 == k) p
            (List.filter (fun q => q.1 != m) l) hpk,
          @List.find?_cons_of_neg _ (fun q => q.1 == k) p l hpk]
        exact ih

lemma getCommandLineFormatStep_eq (acc f : String) :
    getCommandLineFormatStep acc f = acc ++ formatCode f := by
  unfold getCommandLineFormatStep formatCode
  by_cases h1 : f = commandLineFormats.heading
  · rw [if_pos h1, if_pos h1]
  rw [if_neg h1, if_neg h1]
  by_cases h2 : f = commandLineFormats.subHeading
  · rw [if_pos h2, if_pos h2]
  rw [if_neg h2, if_neg h2]
  by_cases h3 : f = commandLineFormats.defaultFmt
  · rw [if_pos h3, if_pos h3]
  rw [if_neg h3, if_neg h3]
  by_cases h4 : f = commandLineFormats.primary
  · rw [if_pos h4, if_pos h4]
  rw [if_neg h4, if_neg h4]
  by_cases h5 : f = commandLineFormats.secondary
  · rw [if_pos h5, if_pos h5]
  rw [if_neg h5, if_neg h5]
  by_cases h6 : f = commandLineFormats.success
  · rw [if_pos h6, if_pos h6]
  rw [if_neg h6, if_neg h6]
  by_cases h7 : f = commandLineFormats.danger
  · rw [if_pos h7, if_pos h7]
  rw [if_neg h7, if_neg h7]
  by_cases h8 : f = commandLineFormats.warning
  · rw [if_pos h8, if_pos h8]
  rw [if_neg h8, if_neg h8]
  by_cases h9 : f = commandLineFormats.info
  · rw [if_pos h9, if_pos h9]
  rw [if_neg h9, if_neg h9]
  by_cases h10 : f = commandLineFormats.light
  · rw [if_pos h10, if_pos h10]
  rw [if_neg h10, if_neg h10]
  by_cases h11 : f = commandLineFormats.dark
  · rw [if_pos h11, if_pos h11]
  rw [if_neg h11, if_neg h11]
  by_cases h12 : f = commandLineFormats.terminal
  · rw [if_pos h12, if_pos h12]
  rw [if_neg h12, if_neg h12, String.append_empty]

lemma foldl_getCommandLineFormatStep (formats : List String) :
    ∀ init : String, formats.foldl getCommandLineFormatStep init = init ++ formatCodes formats := by
  induction formats with
  | nil => intro init; simp [formatCodes, String.append_empty]
  | cons f fs ih =>
    intro init
    calc (f :: fs).foldl getCommandLineFormatStep init
        = fs.foldl getCommandLineFormatStep (getCommandLineFormatStep init f) := rfl
      _ = (init ++ formatCode f) ++ formatCodes fs := by rw [ih, getCommandLineFormatStep_eq]
      _ = init ++ formatCodes (f :: fs) := by
          rw [String.append_assoc]; rfl

/-- C6: `getCommandLineFormat` is a pure left-to-right fold starting from
the reset code that appends the ANSI code of each recognized semantic
name (with `terminal` contributing a foreground+background pair) and
contributes nothing for unrecognized names; the empty sequence and
`["unknown-name"]` both yield exactly the reset code, and
`["heading", "primary"]` yields reset, then bright, then foreground-blue
in argument order. -/
theorem c6_getCommandLineFormat_fold :
    (∀ formats, getCommandLineFormat formats = commandLineColors.reset ++ formatCodes formats)
    ∧ getCommandLineFormat [] = commandLineColors.reset
    ∧ getCommandLineFormat ["unknown-name"] = commandLineColors.reset
    ∧ getCommandLineFormat [commandLineFormats.heading, commandLineFormats.primary] =
        commandLineColors.reset ++ commandLineColors.bright ++ commandLineColors.foregroundBlue := by
  refine ⟨fun formats => ?_, rfl, rfl, rfl⟩
  exact foldl_getCommandLineFormatStep formats commandLineColors.reset

/-- C5: `executeCommand` never raises: a completed command yields a
result holding the captured stdout and stderr, and any rejection of the
awaited promise (including a non-zero exit status) is caught and turned
into a result whose output is empty and whose error is the non-null
failure object. -/
theorem c5_executeCommand_never_raises :
    (∀ world, (executeCommand world).isOk = true)
    ∧ (∀ stdout stderr, executeCommand (.completed stdout stderr) =
        .ok { output := stdout, error := .str stderr })
    ∧ (∀ err, executeCommand (.rejected err) =
          .ok { output := "", error := .failureObj err }
        ∧ JSVal.failureObj err ≠ JSVal.nullv) := by
  refine ⟨fun world => ?_, fun _ _ => rfl, fun err => ⟨rfl, by simp⟩⟩
  cases world <;> rfl

/-- C8: with format type `"heading"`, `printFormattedMessage` prints a
separator line whose width is the terminal column count (or `0`, the
width `String.repeat` produces when the count is unavailable), then the
upper-cased message, then the separator again, each styled with the
format resolved from `[formatType, formatColor]`. -/
theorem c8_printFormattedMessage_heading :
    ∀ (message messageColor : String) (columns : Option Nat),
      printFormattedMessage message commandLineFormats.heading messageColor columns =
        [outputFormattedLog (lineText columns)
           (getCommandLineFormat [commandLineFormats.heading, messageColor]),
         outputFormattedLog message.toUpper
           (getCommandLineFormat [commandLineFormats.heading, messageColor]),
         outputFormattedLog (lineText columns)
           (getCommandLineFormat [commandLineFormats.heading, messageColor])]
      ∧ (lineText columns).length = columns.getD 0 := by
  intro message messageColor columns
  refine ⟨rfl, ?_⟩
  simp [lineText, String.length]

lemma objLookup_cons (q : String × List String) (l : Obj) (j : String) :
    objLookup (q :: l) j = if (q.1 == j) = true then some q.2 else objLookup l j := by
  unfold objLookup
  by_cases h : (q.1 == j) = true
  · rw [@List.find?_cons_of_pos _ (fun z => z.1 == j) q l h, if_pos h]
    rfl
  · rw [@List.find?_cons_of_neg _ (fun z => z.1 == j) q l h, if_neg h]

lemma find?_key_eq_none_of_not_mem {o : Obj} {k : String} (h : k ∉ objKeys o) :
    o.find? (fun q => q.1 == k) = none :=
  List.find?_eq_none.mpr (fun p hp hbeq =>
    h ((beq_iff_eq.mp hbeq) ▸ List.mem_map_of_mem Prod.fst hp))

lemma objLookup_eq_none_of_not_mem {o : Obj} {k : String} (h : k ∉ objKeys o) :
    objLookup o k = none := by
  unfold objLookup
  rw [find?_key_eq_none_of_not_mem h]
  rfl

lemma objLookup_isSome_of_mem {o : Obj} {k : String} (h : k ∈ objKeys o) :
    ∃ vs, objLookup o k = some vs := by
  obtain ⟨p, hp, hpk⟩ := List.mem_map.mp h
  have hsome : (o.find? (fun q => q.1 == k)).isSome :=
    List.find?_isSome.mpr ⟨p, hp, by simp [hpk]⟩
  obtain ⟨q, hq⟩ := Option.isSome_iff_exists.mp hsome
  exact ⟨q.2, by unfold objLookup; rw [hq]; rfl⟩

lemma objLookup_append_self {o : Obj} {k : String} (h : k ∉ objKeys o) (v : List String) :
    objLookup (o ++ [(k, v)]) k = some v := by
  unfold objLookup
  rw [List.find?_append, find?_key_eq_none_of_not_mem h]
  simp

lemma objLookup_append_ne {o : Obj} {k j : String} (hne : j ≠ k) (v : List String) :
    objLookup (o ++ [(k, v)]) j = objLookup o j := by
  unfold objLookup
  have hsingle : List.find? (fun q => q.1 == j) [(k, v)] = none := by
    rw [List.find?_eq_none]
    intro p hp
    have hpk : p = (k, v) := by simpa using hp
    rw [hpk]
    simp [Ne.symm hne]
  rw [List.find?_append, hsingle, Option.or_none]

lemma objSet_of_not_mem {o : Obj} {k : String} (h : k ∉ objKeys o) (v : List String) :
    objSet o k v = o ++ [(k, v)] := by
  unfold objSet
  exact if_neg (fun hc => h (contains_eq_true_iff_mem.mp hc))

lemma objKeys_append (o₁ o₂ : Obj) : objKeys (o₁ ++ o₂) = objKeys o₁ ++ objKeys o₂ := by
  unfold objKeys
  exact List.map_append Prod.fst o₁ o₂

lemma objKeys_objPush (o : Obj) (c a : String) : objKeys (objPush o c a) = objKeys o := by
  unfold objKeys objPush
  rw [List.map_map]
  apply List.map_congr_left
  intro p _
  by_cases hp : (p.1 == c) = true
  · simp only [Function.comp_apply, if_pos hp]
  · simp only [Function.comp_apply, if_neg hp]

lemma objLookup_objPush_self (o : Obj) (c a : String) :
    objLookup (objPush o c a) c = (objLookup o c).map (fun vs => vs ++ [a]) := by
  induction o with
  | nil => rfl
  | cons p l ih =>
    have hstep : objPush (p :: l) c a =
        (if (p.1 == c) = true then (p.1, p.2 ++ [a]) else p) :: objPush l c a := rfl
    rw [hstep]
    by_cases hpc : (p.1 == c) = true
    · rw [if_pos hpc, objLookup_cons, objLookup_cons, if_pos hpc, if_pos hpc]
      rfl
    · rw [if_neg hpc, objLookup_cons, objLookup_cons, if_neg hpc, if_neg hpc]
      exact ih

lemma objLookup_objPush_ne (o : Obj) {c j : String} (hne : j ≠ c) (a : String) :
    objLookup (objPush o c a) j = objLookup o j := by
  induction o with
  | nil => rfl
  | cons p l ih =>
    have hstep : objPush (p :: l) c a =
        (if (p.1 == c) = true then (p.1, p.2 ++ [a]) else p) :: objPush l c a := rfl
    rw [hstep]
    by_cases hpc : (p.1 == c) = true
    · have hpj : ¬ (p.1 == j) = true := by
        rw [beq_iff_eq, beq_iff_eq.mp hpc]
        exact fun hcj => hne hcj.symm
      rw [if_pos hpc, objLookup_cons, objLookup_cons, if_neg hpj, if_neg hpj]
      exact ih
    · rw [if_neg hpc, objLookup_cons, objLookup_cons]
      by_cases hpj : (p.1 == j) = true
      · rw [if_pos hpj, if_pos hpj]
      · rw [if_neg hpj, if_neg hpj]
        exact ih

lemma isFlagToken_ne_unknowns {f : String} (h : isFlagToken f = true) : f ≠ "unknowns" := by
  intro hf
  rw [hf] at h
  exact absurd h (by decide)

lemma tagTokens_cons_flag {cur a : String} (rest : List String) (ha : isFlagToken a = true) :
    tagTokens cur (a :: rest) = tagTokens a rest := by
  show (if isFlagToken a = true then tagTokens a rest else (cur, a) :: tagTokens cur rest) =
    tagTokens a rest
  rw [if_pos ha]

lemma tagTokens_cons_value {cur a : String} (rest : List String)
    (ha : ¬ isFlagToken a = true) :
    tagTokens cur (a :: rest) = (cur, a) :: tagTokens cur rest := by
  show (if isFlagToken a = true then tagTokens a rest else (cur, a) :: tagTokens cur rest) =
    (cur, a) :: tagTokens cur rest
  rw [if_neg ha]

lemma parseLoop_cons_flag (o : Obj) (cur : String) {a : String} (rest : List String)
    (ha : isFlagToken a = true) :
    parseLoop o cur (a :: rest) = parseLoop (objSet o a []) a rest := by
  show (if isFlagToken a = true then parseLoop (objSet o a []) a rest
    else parseLoop (objPush o cur a) cur rest) = parseLoop (objSet o a []) a rest
  rw [if_pos ha]

lemma parseLoop_cons_value (o : Obj) (cur : String) {a : String} (rest : List String)
    (ha : ¬ isFlagToken a = true) :
    parseLoop o cur (a :: rest) = parseLoop (objPush o cur a) cur rest := by
  show (if isFlagToken a = true then parseLoop (objSet o a []) a rest
    else parseLoop (objPush o cur a) cur rest) = parseLoop (objPush o cur a) cur rest
  rw [if_neg ha]

lemma parseLoop_lookup (rest : List String) :
    ∀ (o : Obj) (cur k : String),
      cur ∈ objKeys o →
      (∀ f ∈ rest, isFlagToken f = true → f ∉ objKeys o) →
      (rest.filter (fun x => isFlagToken x)).Nodup →
      (∀ vs, objLookup o k = some vs →
          objLookup (parseLoop o cur rest) k =
            some (vs ++ ((tagTokens cur rest).filter (fun p => p.1 == k)).map Prod.snd))
      ∧ (objLookup o k = none → isFlagToken k = true → k ∈ rest →
          objLookup (parseLoop o cur rest) k =
            some (((tagTokens cur rest).filter (fun p => p.1 == k)).map Prod.snd))
      ∧ (objLookup o k = none → ¬ (isFlagToken k = true ∧ k ∈ rest) →
          objLookup (parseLoop o cur rest) k = none) := by
  induction rest with
  | nil =>
    intro o cur k _ _ _
    refine ⟨?_, ?_, ?_⟩
    · intro vs hvs
      simp [parseLoop, tagTokens, hvs]
    · intro _ _ hmem
      exact absurd hmem (List.not_mem_nil k)
    · intro hnone _
      simp [parseLoop, hnone]
  | cons a rest ih =>
    intro o cur k hcur hfresh hnodup
    by_cases ha : isFlagToken a = true
    · have hafresh : a ∉ objKeys o := hfresh a (List.mem_cons_self a rest) ha
      have hfiltercons : (a :: rest).filter (fun x => isFlagToken x) =
          a :: rest.filter (fun x => isFlagToken x) := by
        rw [List.filter_cons, if_pos ha]
      rw [hfiltercons] at hnodup
      have hnotin := (List.nodup_cons.mp hnodup).1
      have hnodup' := (List.nodup_cons.mp hnodup).2
      have hcur' : a ∈ objKeys (o ++ [(a, [])]) := by
        rw [objKeys_append]
        exact List.mem_append_right _ (by simp [objKeys])
      have hfresh' : ∀ f ∈ rest, isFlagToken f = true → f ∉ objKeys (o ++ [(a, [])]) := by
        intro f hf hflag
        rw [objKeys_append]
        intro hmem
        rcases List.mem_append.mp hmem with hmem1 | hmem2
        · exact hfresh f (List.mem_cons_of_mem a hf) hflag hmem1
        · have hfa : f = a := by simpa [objKeys] using hmem2
          exact hnotin (hfa ▸ List.mem_filter.mpr ⟨hf, hflag⟩)
      have IH := ih (o ++ [(a, [])]) a k hcur' hfresh' hnodup'
      rw [parseLoop_cons_flag o cur rest ha, objSet_of_not_mem hafresh,
        tagTokens_cons_flag rest ha]
      refine ⟨?_, ?_, ?_⟩
      · intro vs hvs
        have hka : k ≠ a := by
          intro h
          rw [h, objLookup_eq_none_of_not_mem hafresh] at hvs
          exact Option.noConfusion hvs
        exact IH.1 vs (by rw [objLookup_append_ne hka]; exact hvs)
      · intro hnone hflag hmem
        by_cases hka : k = a
        · subst hka
          have := IH.1 [] (objLookup_append_self hafresh [])
          rw [List.nil_append] at this
          exact this
        · have hmem' : k ∈ rest := by
            rcases List.mem_cons.mp hmem with h1 | h2
            · exact absurd h1 hka
            · exact h2
          exact IH.2.1 (by rw [objLookup_append_ne hka]; exact hnone) hflag hmem'
      · intro hnone hnot
        have hka : k ≠ a := by
          intro h
          exact hnot ⟨by rw [h]; exact ha, by rw [h]; exact List.mem_cons_self a rest⟩
        refine IH.2.2 (by rw [objLookup_append_ne hka]; exact hnone) ?_
        intro ⟨hf, hm⟩
        exact hnot ⟨hf, List.mem_cons_of_mem a hm⟩
    · have hfiltercons : (a :: rest).filter (fun x => isFlagToken x) =
          rest.filter (fun x => isFlagToken x) := by
        rw [List.filter_cons, if_neg ha]
      rw [hfiltercons] at hnodup
      have hcur' : cur ∈ objKeys (objPush o cur a) := by
        rw [objKeys_objPush]; exact hcur
      have hfresh' : ∀ f ∈ rest, isFlagToken f = true → f ∉ objKeys (objPush o cur a) := by
        intro f hf hflag
        rw [objKeys_objPush]
        exact hfresh f (List.mem_cons_of_mem a hf) hflag
      have IH := ih (objPush o cur a) cur k hcur' hfresh' hnodup
      rw [parseLoop_cons_value o cur rest ha, tagTokens_cons_value rest ha]
      refine ⟨?_, ?_, ?_⟩
      · intro vs hvs
        by_cases hkc : k = cur
        · have hhead : (((cur, a) :: tagTokens cur rest).filter (fun p => p.1 == k)).map
              Prod.snd =
              a :: ((tagTokens cur rest).filter (fun p => p.1 == k)).map Prod.snd := by
            rw [List.filter_cons, if_pos (by rw [beq_iff_eq, hkc])]
            rfl
          have hvs' : objLookup o cur = some vs := hkc ▸ hvs
          have hpush : objLookup (objPush o cur a) k = some (vs ++ [a]) := by
            rw [hkc, objLookup_objPush_self, hvs']
            rfl
          have hrec := IH.1 (vs ++ [a]) hpush
          rw [hhead, hrec, List.append_assoc]
          rfl
        · have hheadne : (((cur, a) :: tagTokens cur rest).filter (fun p => p.1 == k)).map
              Prod.snd =
              ((tagTokens cur rest).filter (fun p => p.1 == k)).map Prod.snd := by
            rw [List.filter_cons,
              if_neg (by rw [beq_iff_eq]; exact fun h => hkc h.symm)]
          rw [hheadne]
          exact IH.1 vs (by rw [objLookup_objPush_ne o hkc]; exact hvs)
      · intro hnone hflag hmem
        have hka : k ≠ a := by
          intro h
          rw [h] at hflag
          exact ha hflag
        have hkc : k ≠ cur := by
          intro h
          obtain ⟨ws, hws⟩ := objLookup_isSome_of_mem hcur
          rw [h, hws] at hnone
          exact Option.noConfusion hnone
        have hheadne : (((cur, a) :: tagTokens cur rest).filter (fun p => p.1 == k)).map
            Prod.snd =
            ((tagTokens cur rest).filter (fun p => p.1 == k)).map Prod.snd := by
          rw [List.filter_cons,
            if_neg (by rw [beq_iff_eq]; exact fun h => hkc h.symm)]
        have hmem' : k ∈ rest := by
          rcases List.mem_cons.mp hmem with h1 | h2
          · exact absurd h1 hka
          · exact h2
        rw [hheadne]
        exact IH.2.1 (by rw [objLookup_objPush_ne o hkc]; exact hnone) hflag hmem'
      · intro hnone hnot
        have hkc : k ≠ cur := by
          intro h
          obtain ⟨ws, hws⟩ := objLookup_isSome_of_mem hcur
          rw [h, hws] at hnone
          exact Option.noConfusion hnone
        refine IH.2.2 (by rw [objLookup_objPush_ne o hkc]; exact hnone) ?_
        intro ⟨hf, hm⟩
        exact hnot ⟨hf, List.mem_cons_of_mem a hm⟩

lemma parseLoop_keys (rest : List String) :
    ∀ (o : Obj) (cur : String),
      (∀ f ∈ rest, isFlagToken f = true → f ∉ objKeys o) →
      (rest.filter (fun x => isFlagToken x)).Nodup →
      objKeys (parseLoop o cur rest) = objKeys o ++ rest.filter (fun x => isFlagToken x) := by
  induction rest with
  | nil =>
    intro o cur _ _
    simp [parseLoop]
  | cons a rest ih =>
    intro o cur hfresh hnodup
    by_cases ha : isFlagToken a = true
    · have hafresh : a ∉ objKeys o := hfresh a (List.mem_cons_self a rest) ha
      have hfiltercons : (a :: rest).filter (fun x => isFlagToken x) =
          a :: rest.filter (fun x => isFlagToken x) := by
        rw [List.filter_cons, if_pos ha]
      rw [hfiltercons] at hnodup ⊢
      have hnotin := (List.nodup_cons.mp hnodup).1
      have hnodup' := (List.nodup_cons.mp hnodup).2
      have hfresh' : ∀ f ∈ rest, isFlagToken f = true → f ∉ objKeys (o ++ [(a, [])]) := by
        intro f hf hflag
        rw [objKeys_append]
        intro hmem
        rcases List.mem_append.mp hmem with hmem1 | hmem2
        · exact hfresh f (List.mem_cons_of_mem a hf) hflag hmem1
        · have hfa : f = a := by simpa [objKeys] using hmem2
          exact hnotin (hfa ▸ List.mem_filter.mpr ⟨hf, hflag⟩)
      rw [parseLoop_cons_flag o cur rest ha, objSet_of_not_mem hafresh,
        ih (o ++ [(a, [])]) a hfresh' hnodup', objKeys_append, List.append_assoc]
      rfl
    · have hfiltercons : (a :: rest).filter (fun x => isFlagToken x) =
          rest.filter (fun x => isFlagToken x) := by
        rw [List.filter_cons, if_neg ha]
      rw [hfiltercons] at hnodup ⊢
      have hfresh' : ∀ f ∈ rest, isFlagToken f = true → f ∉ objKeys (objPush o cur a) := by
        intro f hf hflag
        rw [objKeys_objPush]
        exact hfresh f (List.mem_cons_of_mem a hf) hflag
      rw [parseLoop_cons_value o cur rest ha,
        ih (objPush o cur a) cur hfresh' hnodup, objKeys_objPush]

lemma foldr_allValues (l : Obj) (b : List String) :
    l.foldr (fun p acc => p.2 ++ acc) b = allValues l ++ b := by
  induction l with
  | nil => rfl
  | cons p l ih =>
    simp [allValues, List.foldr_cons, ih, List.append_assoc]

lemma allValues_append (o₁ o₂ : Obj) :
    allValues (o₁ ++ o₂) = allValues o₁ ++ allValues o₂ := by
  unfold allValues
  rw [List.foldr_append]
  exact foldr_allValues o₁ (o₂.foldr (fun p acc => p.2 ++ acc) [])

lemma objPush_last {o₁ : Obj} {cur : String} (h : cur ∉ objKeys o₁)
    (vs : List String) (a : String) :
    objPush (o₁ ++ [(cur, vs)]) cur a = o₁ ++ [(cur, vs ++ [a])] := by
  unfold objPush
  rw [List.map_append]
  congr 1
  · conv_rhs => rw [← List.map_id o₁]
    apply List.map_congr_left
    intro p hp
    have hpc : ¬ (p.1 == cur) = true := by
      rw [beq_iff_eq]
      intro hc
      exact h (hc ▸ List.mem_map_of_mem Prod.fst hp)
    rw [if_neg hpc]
    rfl
  · simp

lemma parseLoop_allValues (rest : List String) :
    ∀ (o₁ : Obj) (cur : String) (vs : List String),
      cur ∉ objKeys o₁ →
      (∀ f ∈ rest, isFlagToken f = true → f ∉ objKeys (o₁ ++ [(cur, vs)])) →
      (rest.filter (fun x => isFlagToken x)).Nodup →
      allValues (parseLoop (o₁ ++ [(cur, vs)]) cur rest) =
        allValues o₁ ++ vs ++ rest.filter (fun x => !isFlagToken x) := by
  induction rest with
  | nil =>
    intro o₁ cur vs _ _ _
    show allValues (o₁ ++ [(cur, vs)]) = allValues o₁ ++ vs ++ []
    have hsingle : allValues [(cur, vs)] = vs := by simp [allValues]
    rw [allValues_append, hsingle, List.append_nil]
  | cons a rest ih =>
    intro o₁ cur vs hcurkeys hfresh hnodup
    by_cases ha : isFlagToken a = true
    · have hafresh : a ∉ objKeys (o₁ ++ [(cur, vs)]) :=
        hfresh a (List.mem_cons_self a rest) ha
      have hfiltercons : (a :: rest).filter (fun x => isFlagToken x) =
          a :: rest.filter (fun x => isFlagToken x) := by
        rw [List.filter_cons, if_pos ha]
      rw [hfiltercons] at hnodup
      have hnotin := (List.nodup_cons.mp hnodup).1
      have hnodup' := (List.nodup_cons.mp hnodup).2
      have hfresh' : ∀ f ∈ rest, isFlagToken f = true →
          f ∉ objKeys ((o₁ ++ [(cur, vs)]) ++ [(a, [])]) := by
        intro f hf hflag
        rw [objKeys_append]
        intro hmem
        rcases List.mem_append.mp hmem with hmem1 | hmem2
        · exact hfresh f (List.mem_cons_of_mem a hf) hflag hmem1
        · have hfa : f = a := by simpa [objKeys] using hmem2
          exact hnotin (hfa ▸ List.mem_filter.mpr ⟨hf, hflag⟩)
      have hvaluecons : (a :: rest).filter (fun x => !isFlagToken x) =
          rest.filter (fun x => !isFlagToken x) := by
        rw [List.filter_cons, if_neg (by simp [ha])]
      rw [parseLoop_cons_flag _ _ _ ha, objSet_of_not_mem hafresh,
        ih (o₁ ++ [(cur, vs)]) a [] hafresh hfresh' hnodup', hvaluecons,
        allValues_append]
      simp [allValues, List.append_assoc]
    · have hfiltercons : (a :: rest).filter (fun x => isFlagToken x) =
          rest.filter (fun x => isFlagToken x) := by
        rw [List.filter_cons, if_neg ha]
      rw [hfiltercons] at hnodup
      have hkeyseq : objKeys (o₁ ++ [(cur, vs ++ [a])]) = objKeys (o₁ ++ [(cur, vs)]) := by
        rw [objKeys_append, objKeys_append]
        rfl
      have hfresh' : ∀ f ∈ rest, isFlagToken f = true →
          f ∉ objKeys (o₁ ++ [(cur, vs ++ [a])]) := by
        intro f hf hflag
        rw [hkeyseq]
        exact hfresh f (List.mem_cons_of_mem a hf) hflag
      have hvaluecons : (a :: rest).filter (fun x => !isFlagToken x) =
          a :: rest.filter (fun x => !isFlagToken x) := by
        rw [List.filter_cons, if_pos (by simp [ha])]
      rw [parseLoop_cons_value _ _ _ ha, objPush_last hcurkeys vs a,
        ih o₁ cur (vs ++ [a]) hcurkeys hfresh' hnodup, hvaluecons]
      simp [List.append_assoc]

lemma processParsedArguments_unfold (registry : Registry) (parsedArgs : Obj)
    (hres : "unknowns" ∉ objKeys parsedArgs) :
    processParsedArguments registry parsedArgs =
      match (objKeys parsedArgs).find?
          (fun argName => !(registryKeys registry).contains argName) with
      | some argName => .error ("Invalid argument: " ++ argName)
      | none => .ok parsedArgs := by
  unfold processParsedArguments
  rw [objDelete_of_not_mem hres]

/-- C1 counterexample: on the input `["-a", "x", "-a"]` the repeated flag
token resets its bucket to empty, so the non-flag token `"x"` survives in
no bucket (`allValues` of the result is empty), although the
scan-position partition assigns `"x"` to the `"-a"` bucket — bucket
assignment does lose a token, refuting the claim as stated. -/
theorem c1_parseInputArguments_token_lost :
    parseInputArguments ["-a", "x", "-a"] = [("unknowns", []), ("-a", [])]
    ∧ allValues (parseInputArguments ["-a", "x", "-a"]) = []
    ∧ bucketSpec ["-a", "x", "-a"] "-a" = ["x"] :=
  ⟨rfl, rfl, rfl⟩

/-- C1 (amended): every flag token becomes the new current bucket and is
reset to a fresh empty bucket even when already present (discarding the
values collected for it earlier); every other token is appended to the
current bucket; tokens before the first flag land in the reserved
bucket.  Provided no flag token occurs twice in the input, bucket
assignment is exactly the scan-position partition with no token lost:
the keys are the reserved bucket followed by the flag tokens in order of
appearance, every bucket holds exactly the values the partition assigns
it, and the buckets together hold exactly the non-flag tokens in order. -/
theorem c1_parseInputArguments_partition (argv : List String)
    (hnodup : (argv.filter (fun x => isFlagToken x)).Nodup) :
    objKeys (parseInputArguments argv) =
        "unknowns" :: argv.filter (fun x => isFlagToken x)
    ∧ objLookup (parseInputArguments argv) "unknowns" = some (bucketSpec argv "unknowns")
    ∧ (∀ k, isFlagToken k = true → k ∈ argv →
        objLookup (parseInputArguments argv) k = some (bucketSpec argv k))
    ∧ (∀ k, k ≠ "unknowns" → ¬ (isFlagToken k = true ∧ k ∈ argv) →
        objLookup (parseInputArguments argv) k = none)
    ∧ allValues (parseInputArguments argv) = argv.filter (fun x => !isFlagToken x) := by
  have hfresh : ∀ f ∈ argv, isFlagToken f = true →
      f ∉ objKeys ([("unknowns", [])] : Obj) := by
    intro f _ hflag hmem
    have hfu : f = "unknowns" := by simpa [objKeys] using hmem
    exact isFlagToken_ne_unknowns hflag hfu
  have hcur : "unknowns" ∈ objKeys ([("unknowns", [])] : Obj) := by simp [objKeys]
  refine ⟨?_, ?_, ?_, ?_, ?_⟩
  · have hkeys := parseLoop_keys argv [("unknowns", [])] "unknowns" hfresh hnodup
    unfold parseInputArguments
    rw [hkeys]
    rfl
  · have hlook : objLookup ([("unknowns", [])] : Obj) "unknowns" = some [] := rfl
    have hres := (parseLoop_lookup argv [("unknowns", [])] "unknowns" "unknowns"
      hcur hfresh hnodup).1 [] hlook
    unfold parseInputArguments
    rw [hres, List.nil_append]
    rfl
  · intro k hflag hmem
    have hnone : objLookup ([("unknowns", [])] : Obj) k = none := by
      apply objLookup_eq_none_of_not_mem
      intro hmm
      have hku : k = "unknowns" := by simpa [objKeys] using hmm
      exact isFlagToken_ne_unknowns hflag hku
    have hres := (parseLoop_lookup argv [("unknowns", [])] "unknowns" k
      hcur hfresh hnodup).2.1 hnone hflag hmem
    unfold parseInputArguments
    rw [hres]
    rfl
  · intro k hne hnot
    have hnone : objLookup ([("unknowns", [])] : Obj) k = none := by
      apply objLookup_eq_none_of_not_mem
      intro hmm
      exact hne (by simpa [objKeys] using hmm)
    have hres := (parseLoop_lookup argv [("unknowns", [])] "unknowns" k
      hcur hfresh hnodup).2.2 hnone hnot
    unfold parseInputArguments
    rw [hres]
  · have hres := parseLoop_allValues argv [] "unknowns" []
      (List.not_mem_nil "unknowns") (fun f hf hflag => hfresh f hf hflag) hnodup
    unfold parseInputArguments
    show allValues (parseLoop (([] : Obj) ++ [("unknowns", [])]) "unknowns" argv) = _
    rw [hres]
    rfl

/-- Witness for C1 (amended) at `["node", "script.js", "-h", "a", "-v"]`. -/
theorem c1_parseInputArguments_partition_witness :
    ((["node", "script.js", "-h", "a", "-v"] : List String).filter
        (fun x => isFlagToken x)).Nodup
    ∧ (objKeys (parseInputArguments ["node", "script.js", "-h", "a", "-v"]) =
          "unknowns" :: (["node", "script.js", "-h", "a", "-v"] : List String).filter
            (fun x => isFlagToken x)
      ∧ objLookup (parseInputArguments ["node", "script.js", "-h", "a", "-v"]) "unknowns" =
          some (bucketSpec ["node", "script.js", "-h", "a", "-v"] "unknowns")
      ∧ (∀ k, isFlagToken k = true → k ∈ (["node", "script.js", "-h", "a", "-v"] : List String) →
          objLookup (parseInputArguments ["node", "script.js", "-h", "a", "-v"]) k =
            some (bucketSpec ["node", "script.js", "-h", "a", "-v"] k))
      ∧ (∀ k, k ≠ "unknowns" →
          ¬ (isFlagToken k = true ∧ k ∈ (["node", "script.js", "-h", "a", "-v"] : List String)) →
          objLookup (parseInputArguments ["node", "script.js", "-h", "a", "-v"]) k = none)
      ∧ allValues (parseInputArguments ["node", "script.js", "-h", "a", "-v"]) =
          (["node", "script.js", "-h", "a", "-v"] : List String).filter
            (fun x => !isFlagToken x)) :=
  ⟨by decide, c1_parseInputArguments_partition ["node", "script.js", "-h", "a", "-v"] (by decide)⟩

/-- C2: for a Parsed Arguments mapping whose reserved bucket has been
removed, `processParsedArguments` raises exactly when some key is absent
from the Flag Registry; it raises on the first unrecognized key in
insertion order, with a message naming that key, and returns its input
unchanged when every key is registered. -/
theorem c2_processParsedArguments_validation (registry : Registry) (parsedArgs : Obj)
    (hres : "unknowns" ∉ objKeys parsedArgs) :
    ((processParsedArguments registry parsedArgs).isOk = true ↔
        ∀ k ∈ objKeys parsedArgs, k ∈ registryKeys registry)
    ∧ (∀ k, (objKeys parsedArgs).find?
          (fun argName => !(registryKeys registry).contains argName) = some k →
        processParsedArguments registry parsedArgs =
          .error ("Invalid argument: " ++ k))
    ∧ ((∀ k ∈ objKeys parsedArgs, k ∈ registryKeys registry) →
        processParsedArguments registry parsedArgs = .ok parsedArgs) := by
  have hunfold := processParsedArguments_unfold registry parsedArgs hres
  refine ⟨?_, ?_, ?_⟩
  · rw [hunfold]
    cases hfind : (objKeys parsedArgs).find?
        (fun argName => !(registryKeys registry).contains argName) with
    | none =>
      refine iff_of_true rfl ?_
      intro k hk
      have hpred := List.find?_eq_none.mp hfind k hk
      rw [← contains_eq_true_iff_mem]
      revert hpred
      cases (registryKeys registry).contains k <;> simp
    | some k =>
      refine iff_of_false ?_ ?_
      · intro hcontr
        rw [show (Except.error ("Invalid argument: " ++ k) : Except String Obj).isOk = false
            from rfl] at hcontr
        exact absurd hcontr (by simp)
      · intro hall
        have hmem := List.mem_of_find?_eq_some hfind
        have hpred := List.find?_some hfind
        rw [contains_eq_true_iff_mem.mpr (hall k hmem)] at hpred
        exact absurd hpred (by simp)
  · intro k hk
    rw [hunfold, hk]
  · intro hall
    have hnone : (objKeys parsedArgs).find?
        (fun argName => !(registryKeys registry).contains argName) = none := by
      rw [List.find?_eq_none]
      intro k hk
      rw [contains_eq_true_iff_mem.mpr (hall k hk)]
      simp
    rw [hunfold, hnone]

/-- Witness for C2 at a concrete registry and mapping. -/
theorem c2_processParsedArguments_validation_witness :
    "unknowns" ∉ objKeys ([("-h", [])] : Obj)
    ∧ (((processParsedArguments builtinSupportedArguments [("-h", [])]).isOk = true ↔
          ∀ k ∈ objKeys ([("-h", [])] : Obj), k ∈ registryKeys builtinSupportedArguments)
      ∧ (∀ k, (objKeys ([("-h", [])] : Obj)).find?
            (fun argName => !(registryKeys builtinSupportedArguments).contains argName) =
              some k →
          processParsedArguments builtinSupportedArguments [("-h", [])] =
            .error ("Invalid argument: " ++ k))
      ∧ ((∀ k ∈ objKeys ([("-h", [])] : Obj), k ∈ registryKeys builtinSupportedArguments) →
          processParsedArguments builtinSupportedArguments [("-h", [])] =
            .ok [("-h", [])])) :=
  ⟨by decide,
   c2_processParsedArguments_validation builtinSupportedArguments [("-h", [])] (by decide)⟩

/-- C10: `processParsedArguments` returns the very reference it was
passed, its only modification to the heap is at that reference, and its
only modification to the referenced object is deleting the reserved
`unknowns` bucket — every other key keeps its value sequence. -/
theorem c10_processParsedArguments_aliasing (registry : Registry) (h : Nat → Obj) (r : Nat)
    (hvalid : (objKeys (objDelete (h r) "unknowns")).find?
        (fun argName => !(registryKeys registry).contains argName) = none) :
    processParsedArgumentsRef registry h r =
        .ok (heapSet h r (objDelete (h r) "unknowns"), r)
    ∧ (∀ i, i ≠ r → heapSet h r (objDelete (h r) "unknowns") i = h i)
    ∧ (∀ k, k ≠ "unknowns" →
        objLookup (objDelete (h r) "unknowns") k = objLookup (h r) k) := by
  refine ⟨?_, ?_, ?_⟩
  · simp only [processParsedArgumentsRef, hvalid]
  · intro i hi
    unfold heapSet
    rw [if_neg hi]
  · intro k hk
    exact objLookup_objDelete_ne (h r) hk

/-- Witness for C10 at a concrete heap. -/
theorem c10_processParsedArguments_aliasing_witness :
    (objKeys (objDelete (sampleHeap 0) "unknowns")).find?
        (fun argName => !(registryKeys builtinSupportedArguments).contains argName) = none
    ∧ (processParsedArgumentsRef builtinSupportedArguments sampleHeap 0 =
          .ok (heapSet sampleHeap 0 (objDelete (sampleHeap 0) "unknowns"), 0)
      ∧ (∀ i, i ≠ 0 → heapSet sampleHeap 0 (objDelete (sampleHeap 0) "unknowns") i =
          sampleHeap i)
      ∧ (∀ k, k ≠ "unknowns" →
          objLookup (objDelete (sampleHeap 0) "unknowns") k = objLookup (sampleHeap 0) k)) :=
  ⟨by rfl, c10_processParsedArguments_aliasing builtinSupportedArguments sampleHeap 0 (by rfl)⟩

/-- C7: when zero flags remain after removing the reserved bucket, `run`
prints the no-flags usage hint and terminates the process with exit
status 1 — its whole event trace is that single print, so no handler is
invoked. -/
theorem c7_run_no_flags_exits (cliToolNameParam : Option String) (callerArgs : Registry)
    (argv : List String)
    (hnoflags : objKeys (objDelete (parseInputArguments argv) "unknowns") = []) :
    run cliToolNameParam callerArgs argv =
      ([Event.printed (noFlagsHint (cliToolNameParam.getD "my-cli"))], RunOutcome.exited 1) := by
  have hfind : (objKeys (objDelete (parseInputArguments argv) "unknowns")).find?
      (fun argName =>
        !(registryKeys (mergeRegistry builtinSupportedArguments callerArgs)).contains argName) =
      none := by
    rw [hnoflags]; rfl
  have hempty : (objKeys (objDelete (parseInputArguments argv) "unknowns")).isEmpty = true := by
    rw [hnoflags]; rfl
  simp only [run, runBody, processParsedArguments, hfind, hempty]
  rw [if_pos trivial]

/-- Witness for C7 at the flagless input `["node", "script.js"]`. -/
theorem c7_run_no_flags_exits_witness :
    objKeys (objDelete (parseInputArguments ["node", "script.js"]) "unknowns") = []
    ∧ run none [] ["node", "script.js"] =
        ([Event.printed (noFlagsHint "my-cli")], RunOutcome.exited 1) :=
  ⟨by rfl, c7_run_no_flags_exits none [] ["node", "script.js"] (by rfl)⟩

lemma find?_key_map_keypreserving {α : Type} (l : List (String × α))
    (g : String × α → String × α) (hg : ∀ p, (g p).1 = p.1) (n : String) :
    (l.map g).find? (fun p => p.1 == n) = (l.find? (fun p => p.1 == n)).map g := by
  induction l with
  | nil => rfl
  | cons p l ih =>
    rw [List.map_cons]
    by_cases hp : (p.1 == n) = true
    · have hgp : ((g p).1 == n) = true := by rw [hg p]; exact hp
      rw [@List.find?_cons_of_pos _ (fun q => q.1 == n) (g p) (l.map g) hgp,
        @List.find?_cons_of_pos _ (fun q => q.1 == n) p l hp]
      rfl
    · have hgp : ¬ ((g p).1 == n) = true := by rw [hg p]; exact hp
      rw [@List.find?_cons_of_neg _ (fun q => q.1 == n) (g p) (l.map g) hgp,
        @List.find?_cons_of_neg _ (fun q => q.1 == n) p l hp]
      exact ih

lemma usageRowUpdate_keypreserving (m : String) (newRow : UsageRow) :
    ∀ p : String × UsageRow, ((if p.1 == m then (p.1, newRow) else p)).1 = p.1 := by
  intro p
  by_cases h : (p.1 == m) = true
  · rw [if_pos h]
  · rw [if_neg h]

lemma usageLookup_eq_none_no_find {usage : UsageTable} {m : String}
    (h : usageLookup usage m = none) : usage.find? (fun p => p.1 == m) = none := by
  unfold usageLookup at h
  exact Option.map_eq_none'.mp h

lemma usageLookup_append_single_self {usage : UsageTable} {m : String}
    (h : usageLookup usage m = none) (row : UsageRow) :
    usageLookup (usage ++ [(m, row)]) m = some row := by
  unfold usageLookup
  rw [List.find?_append, usageLookup_eq_none_no_find h]
  simp

lemma usageLookup_append_single_ne {usage : UsageTable} {m n : String} (hne : n ≠ m)
    (row : UsageRow) :
    usageLookup (usage ++ [(m, row)]) n = usageLookup usage n := by
  unfold usageLookup
  have hsingle : List.find? (fun q => q.1 == n) [(m, row)] = none := by
    rw [List.find?_eq_none]
    intro p hp
    have hpk : p = (m, row) := by simpa using hp
    rw [hpk]
    simp [Ne.symm hne]
  rw [List.find?_append, hsingle, Option.or_none]

lemma usageLookup_map_update_self (usage : UsageTable) (m : String) (newRow : UsageRow) :
    usageLookup (usage.map (fun p => if p.1 == m then (p.1, newRow) else p)) m =
      (usageLookup usage m).map (fun _ => newRow) := by
  unfold usageLookup
  rw [find?_key_map_keypreserving usage _ (usageRowUpdate_keypreserving m newRow) m]
  cases hf : usage.find? (fun p => p.1 == m) with
  | none => rfl
  | some q =>
    have hq := List.find?_some hf
    show some (Prod.snd (if (q.1 == m) = true then (q.1, newRow) else q)) = some newRow
    rw [if_pos hq]

lemma usageLookup_map_update_ne (usage : UsageTable) {m n : String} (hne : n ≠ m)
    (newRow : UsageRow) :
    usageLookup (usage.map (fun p => if p.1 == m then (p.1, newRow) else p)) n =
      usageLookup usage n := by
  unfold usageLookup
  rw [find?_key_map_keypreserving usage _ (usageRowUpdate_keypreserving m newRow) n]
  cases hf : usage.find? (fun p => p.1 == n) with
  | none => rfl
  | some q =>
    have hq := List.find?_some hf
    have hqm : ¬ (q.1 == m) = true := by
      rw [beq_iff_eq] at hq ⊢
      rw [hq]
      exact hne
    show some (Prod.snd (if (q.1 == m) = true then (q.1, newRow) else q)) = some q.2
    rw [if_neg hqm]

lemma countRows_append_single (usage : UsageTable) (m : String) (row : UsageRow)
    (n : String) :
    countRows (usage ++ [(m, row)]) n =
      countRows usage n + (if (m == n) = true then 1 else 0) := by
  unfold countRows
  rw [List.countP_append]
  congr 1
  simp [List.countP_cons]

lemma countRows_map_update (usage : UsageTable) (m : String) (newRow : UsageRow)
    (n : String) :
    countRows (usage.map (fun p => if p.1 == m then (p.1, newRow) else p)) n =
      countRows usage n := by
  unfold countRows
  rw [List.countP_map]
  apply List.countP_congr
  intro p _
  rw [Function.comp_apply, usageRowUpdate_keypreserving m newRow p]

lemma buildUsageStep_of_none {usage : UsageTable} {entry : String × FlagDef}
    (h : usageLookup usage entry.2.name = none) :
    buildUsageStep usage entry =
      usage ++ [(entry.2.name,
        { Flags := [entry.1], Options := entry.2.allowedOptions.getD [],
          Description := entry.2.description })] := by
  simp only [buildUsageStep, h]

lemma buildUsageStep_of_some {usage : UsageTable} {entry : String × FlagDef}
    {row : UsageRow} (h : usageLookup usage entry.2.name = some row) :
    buildUsageStep usage entry =
      usage.map (fun p => if p.1 == entry.2.name
        then (p.1, { row with Flags := row.Flags ++ [entry.1] }) else p) := by
  simp only [buildUsageStep, h]

lemma usageLookup_buildUsageStep_ne {usage : UsageTable} {entry : String × FlagDef}
    {n : String} (hname : entry.2.name ≠ n) :
    usageLookup (buildUsageStep usage entry) n = usageLookup usage n := by
  cases hu : usageLookup usage entry.2.name with
  | none =>
    rw [buildUsageStep_of_none hu]
    exact usageLookup_append_single_ne (fun h => hname h.symm) _
  | some row =>
    rw [buildUsageStep_of_some hu]
    exact usageLookup_map_update_ne usage (fun h => hname h.symm) _

lemma buildUsage_fold_lookup (entries : Registry) :
    ∀ (usage : UsageTable) (n : String),
      (∀ row, usageLookup usage n = some row →
        usageLookup (entries.foldl buildUsageStep usage) n =
          some { row with Flags := row.Flags ++ tokensWithName entries n })
      ∧ (usageLookup usage n = none →
          (∀ first, entries.find? (fun p => p.2.name == n) = some first →
            usageLookup (entries.foldl buildUsageStep usage) n =
              some { Flags := tokensWithName entries n,
                     Options := first.2.allowedOptions.getD [],
                     Description := first.2.description })
          ∧ (entries.find? (fun p => p.2.name == n) = none →
            usageLookup (entries.foldl buildUsageStep usage) n = none)) := by
  induction entries with
  | nil =>
    intro usage n
    refine ⟨?_, ?_⟩
    · intro row hrow
      show usageLookup usage n = _
      rw [hrow]
      have hnil : tokensWithName [] n = [] := rfl
      rw [hnil, List.append_nil]
    · intro hnone
      exact ⟨fun first hfind => Option.noConfusion hfind, fun _ => hnone⟩
  | cons entry entries ih =>
    intro usage n
    rw [List.foldl_cons]
    by_cases hname : entry.2.name = n
    · subst hname
      have htok : tokensWithName (entry :: entries) entry.2.name =
          entry.1 :: tokensWithName entries entry.2.name := by
        unfold tokensWithName
        rw [List.filter_cons, if_pos (by simp)]
        rfl
      refine ⟨?_, ?_⟩
      · intro row hrow
        have hlook : usageLookup (buildUsageStep usage entry) entry.2.name =
            some { row with Flags := row.Flags ++ [entry.1] } := by
          rw [buildUsageStep_of_some hrow, usageLookup_map_update_self, hrow]
          rfl
        have hrec := (ih (buildUsageStep usage entry) entry.2.name).1
          { row with Flags := row.Flags ++ [entry.1] } hlook
        rw [hrec, htok]
        simp [List.append_assoc]
      · intro hnone
        constructor
        · intro first hfind
          have hfirst : first = entry := by
            rw [@List.find?_cons_of_pos _ (fun p => p.2.name == entry.2.name) entry entries
              (by simp)] at hfind
            exact (Option.some.inj hfind).symm
          rw [hfirst]
          have hlook : usageLookup (buildUsageStep usage entry) entry.2.name =
              some { Flags := [entry.1], Options := entry.2.allowedOptions.getD [],
                     Description := entry.2.description } := by
            rw [buildUsageStep_of_none hnone]
            exact usageLookup_append_single_self hnone _
          have hrec := (ih (buildUsageStep usage entry) entry.2.name).1 _ hlook
          rw [hrec, htok]
          rfl
        · intro hfind
          exfalso
          rw [@List.find?_cons_of_pos _ (fun p => p.2.name == entry.2.name) entry entries
            (by simp)] at hfind
          exact Option.noConfusion hfind
    · have htok : tokensWithName (entry :: entries) n = tokensWithName entries n := by
        unfold tokensWithName
        rw [List.filter_cons, if_neg (by simp [hname])]
      have hkeep := @usageLookup_buildUsageStep_ne usage entry n hname
      refine ⟨?_, ?_⟩
      · intro row hrow
        have hrec := (ih (buildUsageStep usage entry) n).1 row (by rw [hkeep]; exact hrow)
        rw [hrec, htok]
      · intro hnone
        have hstepnone : usageLookup (buildUsageStep usage entry) n = none := by
          rw [hkeep]; exact hnone
        constructor
        · intro first hfind
          rw [@List.find?_cons_of_neg _ (fun p => p.2.name == n) entry entries
            (by simp [hname])] at hfind
          have hrec := ((ih (buildUsageStep usage entry) n).2 hstepnone).1 first hfind
          rw [hrec, htok]
        · intro hfind
          rw [@List.find?_cons_of_neg _ (fun p => p.2.name == n) entry entries
            (by simp [hname])] at hfind
          exact ((ih (buildUsageStep usage entry) n).2 hstepnone).2 hfind

lemma buildUsage_fold_count (entries : Registry) :
    ∀ (usage : UsageTable) (n : String),
      (∀ row, usageLookup usage n = some row →
        countRows (entries.foldl buildUsageStep usage) n = countRows usage n)
      ∧ (usageLookup usage n = none →
          (entries.any (fun p => p.2.name == n) = true →
            countRows (entries.foldl buildUsageStep usage) n = countRows usage n + 1)
          ∧ (entries.any (fun p => p.2.name == n) = false →
            countRows (entries.foldl buildUsageStep usage) n = countRows usage n)) := by
  induction entries with
  | nil =>
    intro usage n
    refine ⟨fun row hrow => rfl, fun hnone => ⟨fun hany => absurd hany (by simp), fun _ => rfl⟩⟩
  | cons entry entries ih =>
    intro usage n
    rw [List.foldl_cons]
    by_cases hname : entry.2.name = n
    · subst hname
      refine ⟨?_, ?_⟩
      · intro row hrow
        have hlook : usageLookup (buildUsageStep usage entry) entry.2.name =
            some { row with Flags := row.Flags ++ [entry.1] } := by
          rw [buildUsageStep_of_some hrow, usageLookup_map_update_self, hrow]
          rfl
        have hcount : countRows (buildUsageStep usage entry) entry.2.name =
            countRows usage entry.2.name := by
          rw [buildUsageStep_of_some hrow]
          exact countRows_map_update usage entry.2.name _ entry.2.name
        rw [(ih (buildUsageStep usage entry) entry.2.name).1 _ hlook, hcount]
      · intro hnone
        have hlook : usageLookup (buildUsageStep usage entry) entry.2.name =
            some { Flags := [entry.1], Options := entry.2.allowedOptions.getD [],
                   Description := entry.2.description } := by
          rw [buildUsageStep_of_none hnone]
          exact usageLookup_append_single_self hnone _
        have hcount : countRows (buildUsageStep usage entry) entry.2.name =
            countRows usage entry.2.name + 1 := by
          rw [buildUsageStep_of_none hnone, countRows_append_single, if_pos (by simp)]
        constructor
        · intro _
          rw [(ih (buildUsageStep usage entry) entry.2.name).1 _ hlook, hcount]
        · intro hany
          exfalso
          rw [List.any_cons] at hany
          simp at hany
    · have hpe : (entry.2.name == n) = false := by simp [hname]
      have hany_cons : (entry :: entries).any (fun p => p.2.name == n) =
          entries.any (fun p => p.2.name == n) := by
        rw [List.any_cons, hpe, Bool.false_or]
      have hkeep := @usageLookup_buildUsageStep_ne usage entry n hname
      have hcountkeep : countRows (buildUsageStep usage entry) n = countRows usage n := by
        cases hu : usageLookup usage entry.2.name with
        | none =>
          rw [buildUsageStep_of_none hu, countRows_append_single, if_neg (by simp [hname]),
            Nat.add_zero]
        | some row =>
          rw [buildUsageStep_of_some hu]
          exact countRows_map_update usage entry.2.name _ n
      refine ⟨?_, ?_⟩
      · intro row hrow
        rw [(ih (buildUsageStep usage entry) n).1 row (by rw [hkeep]; exact hrow), hcountkeep]
      · intro hnone
        have hstepnone : usageLookup (buildUsageStep usage entry) n = none := by
          rw [hkeep]; exact hnone
        constructor
        · intro hany
          rw [hany_cons] at hany
          rw [((ih (buildUsageStep usage entry) n).2 hstepnone).1 hany, hcountkeep]
        · intro hany
          rw [hany_cons] at hany
          rw [((ih (buildUsageStep usage entry) n).2 hstepnone).2 hany, hcountkeep]

lemma registryLookup_isSome_of_mem {reg : Registry} {k : String}
    (h : k ∈ registryKeys reg) : ∃ d, registryLookup reg k = some d := by
  obtain ⟨p, hp, hpk⟩ := List.mem_map.mp h
  have hsome : (reg.find? (fun q => q.1 == k)).isSome :=
    List.find?_isSome.mpr ⟨p, hp, by simp [hpk]⟩
  obtain ⟨q, hq⟩ := Option.isSome_iff_exists.mp hsome
  exact ⟨q.2, by unfold registryLookup; rw [hq]; rfl⟩

lemma dispatchLoop_cons (registry : Registry) (argName : String) (vals : List String)
    (rest : List (String × List String)) :
    dispatchLoop registry ((argName, vals) :: rest) =
      match registryLookup registry argName with
      | none => ([], .threw "TypeError: undefined handler")
      | some d =>
        match d.f vals with
        | (lines, some e) =>
            (Event.invoked argName vals :: lines.map Event.emitted, .threw e)
        | (lines, none) =>
            let step := dispatchLoop registry rest
            (Event.invoked argName vals :: (lines.map Event.emitted ++ step.1), step.2) :=
  rfl

lemma handlerTrace_eq {registry : Registry} {argName : String} {d : FlagDef}
    (hd : registryLookup registry argName = some d) (vals : List String) :
    handlerTrace registry argName vals =
      Event.invoked argName vals :: (d.f vals).1.map Event.emitted := by
  unfold handlerTrace
  rw [hd]

lemma handlerRaises_eq {registry : Registry} {argName : String} {d : FlagDef}
    (hd : registryLookup registry argName = some d) (vals : List String) :
    handlerRaises registry argName vals = (d.f vals).2 := by
  unfold handlerRaises
  rw [hd]

lemma dispatchLoop_all_ok (registry : Registry) (args : List (String × List String))
    (hbound : ∀ p ∈ args, ∃ d, registryLookup registry p.1 = some d)
    (hok : ∀ p ∈ args, handlerRaises registry p.1 p.2 = none) :
    dispatchLoop registry args =
      (args.flatMap (fun p => handlerTrace registry p.1 p.2), RunOutcome.finished) := by
  induction args with
  | nil => rfl
  | cons p rest ih =>
    obtain ⟨d, hd⟩ := hbound p (List.mem_cons_self p rest)
    have hrp := hok p (List.mem_cons_self p rest)
    rw [handlerRaises_eq hd] at hrp
    have hrec := ih (fun q hq => hbound q (List.mem_cons_of_mem p hq))
      (fun q hq => hok q (List.mem_cons_of_mem p hq))
    rcases hfv : d.f p.2 with ⟨lines, o⟩
    rw [hfv] at hrp
    cases o with
    | some e => exact absurd hrp (by simp)
    | none =>
      have hp : p = (p.1, p.2) := rfl
      rw [hp, dispatchLoop_cons]
      simp only [hd, hfv, hrec, List.flatMap_cons]
      rw [handlerTrace_eq hd, hfv]
      simp

lemma dispatchLoop_abort (registry : Registry) (pre : List (String × List String))
    (argName : String) (vals : List String) (post : List (String × List String))
    (e : String)
    (hboundpre : ∀ p ∈ pre, ∃ d, registryLookup registry p.1 = some d)
    (hokpre : ∀ p ∈ pre, handlerRaises registry p.1 p.2 = none)
    (hfail : handlerRaises registry argName vals = some e) :
    dispatchLoop registry (pre ++ (argName, vals) :: post) =
      (pre.flatMap (fun p => handlerTrace registry p.1 p.2) ++
        handlerTrace registry argName vals, RunOutcome.threw e) := by
  induction pre with
  | nil =>
    cases hd : registryLookup registry argName with
    | none =>
      exfalso
      unfold handlerRaises at hfail
      rw [hd] at hfail
      exact Option.noConfusion hfail
    | some d =>
      have hfd := hfail
      rw [handlerRaises_eq hd] at hfd
      rcases hfv : d.f vals with ⟨lines, o⟩
      rw [hfv] at hfd
      cases o with
      | none => exact absurd hfd (by simp)
      | some e2 =>
        have he : e2 = e := by simpa using hfd
        subst he
        rw [List.nil_append, dispatchLoop_cons]
        simp only [hd, hfv, List.flatMap_nil, List.nil_append]
        rw [handlerTrace_eq hd, hfv]
  | cons q pre ih =>
    obtain ⟨d, hd⟩ := hboundpre q (List.mem_cons_self q pre)
    have hrq := hokpre q (List.mem_cons_self q pre)
    rw [handlerRaises_eq hd] at hrq
    have hrec := ih (fun p hp => hboundpre p (List.mem_cons_of_mem q hp))
      (fun p hp => hokpre p (List.mem_cons_of_mem q hp))
    rcases hfv : d.f q.2 with ⟨lines, o⟩
    rw [hfv] at hrq
    cases o with
    | some e2 => exact absurd hrq (by simp)
    | none =>
      have hq : q = (q.1, q.2) := rfl
      rw [List.cons_append, hq, dispatchLoop_cons]
      simp only [hd, hfv, hrec, List.flatMap_cons]
      rw [handlerTrace_eq hd, hfv]
      simp [List.append_assoc]

lemma processParsedArguments_ok_sound {registry : Registry} {parsed : Obj}
    {args : Obj} (h : processParsedArguments registry parsed = .ok args) :
    args = objDelete parsed "unknowns"
    ∧ ∀ k ∈ objKeys args, k ∈ registryKeys registry := by
  simp only [processParsedArguments] at h
  cases hfind : (objKeys (objDelete parsed "unknowns")).find?
      (fun argName => !(registryKeys registry).contains argName) with
  | some a =>
    rw [hfind] at h
    exact Except.noConfusion h
  | none =>
    rw [hfind] at h
    have hargs : objDelete parsed "unknowns" = args := by
      cases h
      rfl
    subst hargs
    refine ⟨rfl, ?_⟩
    intro k hk
    have hpred := List.find?_eq_none.mp hfind k hk
    rw [← contains_eq_true_iff_mem]
    revert hpred
    cases (registryKeys registry).contains k <;> simp

/-- C4: `run` invokes the handler of each recognized flag key in mapping
iteration order, passing the flag's bucket values, completing one handler
before invoking the next (the whole trace of handler N precedes the
invocation marker of handler N+1); a handler that raises propagates the
error and aborts all remaining dispatch, leaving no trace of any later
handler. -/
theorem c4_run_sequential_dispatch (cliToolNameParam : Option String)
    (callerArgs : Registry) (argv : List String) (registry : Registry)
    (processedArgs : List (String × List String))
    (hreg : registry = mergeRegistry builtinSupportedArguments callerArgs)
    (hproc : processParsedArguments registry (parseInputArguments argv) =
      .ok processedArgs)
    (hne : processedArgs ≠ []) :
    ((∀ p ∈ processedArgs, handlerRaises registry p.1 p.2 = none) →
      run cliToolNameParam callerArgs argv =
        (processedArgs.flatMap (fun p => handlerTrace registry p.1 p.2),
          RunOutcome.finished))
    ∧ (∀ pre argName vals post e,
        processedArgs = pre ++ (argName, vals) :: post →
        (∀ p ∈ pre, handlerRaises registry p.1 p.2 = none) →
        handlerRaises registry argName vals = some e →
        run cliToolNameParam callerArgs argv =
          (pre.flatMap (fun p => handlerTrace registry p.1 p.2) ++
            handlerTrace registry argName vals, RunOutcome.threw e)) := by
  subst hreg
  have hkeys := (processParsedArguments_ok_sound hproc).2
  have hbound : ∀ p ∈ processedArgs,
      ∃ d, registryLookup (mergeRegistry builtinSupportedArguments callerArgs) p.1 =
        some d :=
    fun p hp => registryLookup_isSome_of_mem (hkeys p.1 (List.mem_map_of_mem Prod.fst hp))
  have hempty : ¬ ((objKeys processedArgs).isEmpty = true) := by
    cases processedArgs with
    | nil => exact absurd rfl hne
    | cons q l => simp [objKeys]
  constructor
  · intro hok
    have hdisp := dispatchLoop_all_ok _ processedArgs hbound hok
    simp only [run, runBody, hproc]
    rw [if_neg hempty]
    exact hdisp
  · intro pre argName vals post e hsplit hokpre hfail
    have hdisp := dispatchLoop_abort _ pre argName vals post e
      (fun p hp => hbound p (hsplit ▸ List.mem_append_left _ hp)) hokpre hfail
    simp only [run, runBody, hproc]
    rw [if_neg hempty, hsplit]
    exact hdisp

/-- Witness for C4: a registry with one succeeding and one failing caller
flag, instantiating both the all-succeed and the abort conclusions. -/
theorem c4_run_sequential_dispatch_witness :
    (sampleRegistry = mergeRegistry builtinSupportedArguments sampleCallerArgs
      ∧ processParsedArguments sampleRegistry (parseInputArguments sampleArgv) =
          .ok sampleProcessed
      ∧ sampleProcessed ≠ [])
    ∧ ((∀ p ∈ sampleProcessed, handlerRaises sampleRegistry p.1 p.2 = none) →
        run none sampleCallerArgs sampleArgv =
          (sampleProcessed.flatMap (fun p => handlerTrace sampleRegistry p.1 p.2),
            RunOutcome.finished))
    ∧ (∀ pre argName vals post e,
        sampleProcessed = pre ++ (argName, vals) :: post →
        (∀ p ∈ pre, handlerRaises sampleRegistry p.1 p.2 = none) →
        handlerRaises sampleRegistry argName vals = some e →
        run none sampleCallerArgs sampleArgv =
          (pre.flatMap (fun p => handlerTrace sampleRegistry p.1 p.2) ++
            handlerTrace sampleRegistry argName vals, RunOutcome.threw e)) :=
  ⟨⟨rfl, by rfl, by decide⟩,
   (c4_run_sequential_dispatch none sampleCallerArgs sampleArgv sampleRegistry
      sampleProcessed rfl (by rfl) (by decide)).1,
   (c4_run_sequential_dispatch none sampleCallerArgs sampleArgv sampleRegistry
      sampleProcessed rfl (by rfl) (by decide)).2⟩

/-- C9: when all flag tokens whose Flag Definitions share one canonical
name carry the same definition, `outputSupportedUsage` builds exactly one
row for that name; its Flags are exactly the aliased tokens in registry
order, its Options the definition's allowed-option list or empty, its
Description the definition's description. -/
theorem c9_outputSupportedUsage_aliases (registry : Registry) (n : String) (d : FlagDef)
    (hshared : ∀ p ∈ registry, p.2.name = n → p.2 = d)
    (hmem : registry.any (fun p => p.2.name == n) = true) :
    countRows (buildUsage registry) n = 1
    ∧ usageLookup (buildUsage registry) n =
        some { Flags := tokensWithName registry n,
               Options := d.allowedOptions.getD [],
               Description := d.description } := by
  have hlooknil : usageLookup ([] : UsageTable) n = none := rfl
  have hfindsome : ∃ first, registry.find? (fun p => p.2.name == n) = some first := by
    obtain ⟨p, hp, hpred⟩ := List.any_eq_true.mp hmem
    have hsome : (registry.find? (fun p => p.2.name == n)).isSome :=
      List.find?_isSome.mpr ⟨p, hp, hpred⟩
    exact Option.isSome_iff_exists.mp hsome
  obtain ⟨first, hfind⟩ := hfindsome
  have hfirstmem := List.mem_of_find?_eq_some hfind
  have hfirstname : first.2.name = n := by simpa using List.find?_some hfind
  have hfirstd : first.2 = d := hshared first hfirstmem hfirstname
  constructor
  · have hcount := ((buildUsage_fold_count registry [] n).2 hlooknil).1 hmem
    unfold buildUsage
    rw [hcount]
    rfl
  · have hlook := ((buildUsage_fold_lookup registry [] n).2 hlooknil).1 first hfind
    unfold buildUsage
    rw [hlook, hfirstd]

/-- Witness for C9 at the registry aliasing `-h` and `--help` to the
built-in `help` definition. -/
theorem c9_outputSupportedUsage_aliases_witness :
    (∀ p ∈ ([("-h", helpDef), ("--help", helpDef)] : Registry),
        p.2.name = "help" → p.2 = helpDef)
    ∧ ([("-h", helpDef), ("--help", helpDef)] : Registry).any
        (fun p => p.2.name == "help") = true
    ∧ (countRows (buildUsage [("-h", helpDef), ("--help", helpDef)]) "help" = 1
      ∧ usageLookup (buildUsage [("-h", helpDef), ("--help", helpDef)]) "help" =
          some { Flags := tokensWithName [("-h", helpDef), ("--help", helpDef)] "help",
                 Options := helpDef.allowedOptions.getD [],
                 Description := helpDef.description }) := by
  have hshared : ∀ p ∈ ([("-h", helpDef), ("--help", helpDef)] : Registry),
      p.2.name = "help" → p.2 = helpDef := by
    intro p hp _
    rcases List.mem_cons.mp hp with h1 | h2
    · rw [h1]
    · rcases List.mem_cons.mp h2 with h3 | h4
      · rw [h3]
      · exact absurd h4 (List.not_mem_nil p)
  exact ⟨hshared, by rfl,
    c9_outputSupportedUsage_aliases [("-h", helpDef), ("--help", helpDef)] "help" helpDef
      hshared (by rfl)⟩

/-- C3: in the src/unnamed/part_000 variant, every call to `run` throws a
`ReferenceError` at the strict-mode assignment to the undeclared
identifier `versionNumber`, with an empty event trace — so no argument is
parsed, no registry entry is merged and no handler is invoked, and `run`
never completes normally for any input. -/
theorem c3_runPart000_always_referenceError :
    ∀ (cliToolNameParam versionNumberParam : Option String) (callerArgs : Registry)
      (argv : List String),
      runPart000 cliToolNameParam versionNumberParam callerArgs argv =
        ([], RunOutcome.threw "ReferenceError: versionNumber is not defined") := by
  intro _ _ _ _
  rfl

end DxCli
